import Mathlib

/-!
Verification of the coil configuration-composition engine
(repository cvlsoft/coil, production file src/unnamed/part_003).

The engine walks a nested Go struct type whose fields carry metadata tags
(name, type, default, desc, and a per-substructure namespace tag), registers
one command-line flag per tagged leaf, builds a key/value resolver (viper with
AutomaticEnv and BindPFlags), and assigns resolved values back onto a live
struct instance.  Everything below is a shallow embedding of that code:
struct types become a tree of fields, struct instances become a mirroring tree
of values, the resolver becomes a record of accessor functions, the
process-wide pflag.CommandLine becomes explicit state, and panics become
Except.error.
-/

namespace Coil

/-- The Go reflect kinds distinguished by the engine's assignment switch
(src/unnamed/part_003 lines 143-212).  kInt64 is the kind of time.Duration
fields and kSlice the kind of []string fields; neither has a case in that
switch. -/
inductive GoKind where
  | kString
  | kBool
  | kInt
  | kInt64
  | kSlice
  | kFloat32
  | kFloat64
  deriving DecidableEq, Repr

/-- The struct-tag metadata of one leaf field: the name, type, default and
desc tags read via field.Tag.Get.  A tag that is absent in Go reads as "". -/
structure Tags where
  name : String
  type : String
  default : String
  desc : String
  deriving DecidableEq, Repr

/-- An exact scaled decimal, mant * 10 ^ (-exp).  Used as the value domain for
parsed float defaults: strconv.ParseFloat on the plain decimal literals the
engine deals in is modelled exactly, without rounding to binary floating
point (no claim depends on the rounding). -/
structure Dec where
  mant : Int
  exp : Nat
  deriving DecidableEq, Repr

/-- A default value registered with the flag set, tagged by the flag's
declared type (fs.String / fs.StringSlice / fs.Int64 / fs.Bool / fs.Float32 /
fs.Float64 / fs.Duration). -/
inductive FlagVal where
  | str (s : String)
  | strSlice (xs : List String)
  | int (i : Int)
  | bool (b : Bool)
  | float32 (x : Dec)
  | float64 (x : Dec)
  | duration (ns : Int)
  deriving DecidableEq, Repr

/-- One flag registration: qualified name, default value, help text. -/
structure FlagDef where
  name : String
  defVal : FlagVal
  desc : String
  deriving DecidableEq, Repr

mutual
/-- One field of a Go struct type as the engine sees it: either a leaf with
its reflect kind and tag metadata, or a nested struct field with its tag for
namespace composition, whether a Parse method is in scope for the nested
value's address (vp.MethodByName at line 215), and its own field list. -/
inductive Field where
  | leaf (kind : GoKind) (tag : Tags)
  | nested (nsTag : String) (hasParse : Bool) (sub : Fields)
/-- The ordered field list of a Go struct type. -/
inductive Fields where
  | nil
  | cons (f : Field) (fs : Fields)
end

mutual
/-- A live Go value of one field, mirroring Field. -/
inductive GoVal where
  | vString (s : String)
  | vBool (b : Bool)
  | vInt (i : Int)
  | vInt64 (i : Int)
  | vSlice (xs : List String)
  | vFloat32 (x : Dec)
  | vFloat64 (x : Dec)
  | vStruct (fields : GoVals)
/-- The field values of a live struct instance, in field order. -/
inductive GoVals where
  | vnil
  | vcons (v : GoVal) (vs : GoVals)
end

/-- Decimal digit test, as in the Go standard library parsers. -/
def isDigitCh (c : Char) : Bool := '0' ≤ c ∧ c ≤ '9'

/-- Accumulate a base-10 digit string; none on any non-digit character. -/
def decDigitsAux : List Char → Nat → Option Nat
  | [], acc => some acc
  | c :: cs, acc =>
    if isDigitCh c then decDigitsAux cs (acc * 10 + (c.toNat - '0'.toNat))
    else none

/-- Embeds strconv.Atoi / strconv.ParseInt(s, 10, 64): optional sign, a
non-empty run of decimal digits, and the int64 range check. -/
def parseIntGo (s : String) : Option Int :=
  let cs := s.data
  let sign : Int := if cs.head? = some '-' then -1 else 1
  let rest := if cs.head? = some '-' ∨ cs.head? = some '+' then cs.drop 1 else cs
  match rest with
  | [] => none
  | _ =>
    match decDigitsAux rest 0 with
    | none => none
    | some n =>
      let v : Int := sign * (n : Int)
      if -(2 ^ 63) ≤ v ∧ v ≤ 2 ^ 63 - 1 then some v else none

/-- Embeds strconv.ParseFloat on the plain decimal literals used as float
defaults: optional sign, digits, optional fraction, at least one digit in
total.  The value is kept as an exact scaled decimal (see Dec); exponent and
hexadecimal forms, inf and NaN are outside the engine's documented use and
parse to none here. -/
def parseFloatGo (s : String) : Option Dec :=
  let cs := s.data
  let sign : Int := if cs.head? = some '-' then -1 else 1
  let rest := if cs.head? = some '-' ∨ cs.head? = some '+' then cs.drop 1 else cs
  let intPart := rest.takeWhile (fun c => c ≠ '.')
  match rest.drop intPart.length with
  | [] =>
    match rest with
    | [] => none
    | _ => (decDigitsAux rest 0).map (fun n => ⟨sign * (n : Int), 0⟩)
  | _ :: frac =>
    if intPart = [] ∧ frac = [] then none
    else
      match decDigitsAux intPart 0, decDigitsAux frac 0 with
      | some a, some b =>
        some ⟨sign * ((a : Int) * (10 : Int) ^ frac.length + (b : Int)), frac.length⟩
      | _, _ => none

/-- One duration unit suffix and its nanosecond multiplier (time.ParseDuration
unit table; the ASCII units the repository's defaults use). -/
def parseUnit : List Char → Option (Int × List Char)
  | 'n' :: 's' :: r => some (1, r)
  | 'u' :: 's' :: r => some (1000, r)
  | 'm' :: 's' :: r => some (1000000, r)
  | 's' :: r => some (1000000000, r)
  | 'm' :: r => some (60000000000, r)
  | 'h' :: r => some (3600000000000, r)
  | _ => none

/-- A sequence of integer-valued number+unit terms, summed in nanoseconds. -/
def parseDurTerms : Nat → List Char → Option Int
  | _, [] => some 0
  | 0, _ :: _ => none
  | fuel + 1, c :: cs =>
    let ds := (c :: cs).takeWhile isDigitCh
    if ds = [] then none
    else
      match decDigitsAux ds 0 with
      | none => none
      | some n =>
        match parseUnit ((c :: cs).drop ds.length) with
        | none => none
        | some (mult, rest2) =>
          match parseDurTerms fuel rest2 with
          | none => none
          | some acc => some ((n : Int) * mult + acc)

/-- Embeds time.ParseDuration on the integer-valued duration literals used as
defaults ("15s", "1h30m", "0", ...): optional sign, then number+unit terms.
Fractional terms and the unicode microsecond spellings are outside the
repository's use and parse to none here. -/
def parseDurationGo (s : String) : Option Int :=
  if s = "0" then some 0
  else
    let cs := s.data
    let sign : Int := if cs.head? = some '-' then -1 else 1
    let rest := if cs.head? = some '-' ∨ cs.head? = some '+' then cs.drop 1 else cs
    match rest with
    | [] => none
    | _ => (parseDurTerms rest.length rest).map (fun v => sign * v)

/-- Embeds strings.Split(s, ",") as used for []string defaults (line 99). -/
def splitCommaAux : List Char → List Char → List String
  | [], acc => [String.mk acc.reverse]
  | ',' :: cs, acc => String.mk acc.reverse :: splitCommaAux cs []
  | c :: cs, acc => splitCommaAux cs (c :: acc)

/-- strings.Split on the separator ",": always at least one piece, and
splitting the empty string gives [""]. -/
def splitComma (s : String) : List String := splitCommaAux s.data []

/-- ASCII upper-casing of one character, as strings.ToUpper acts on the
lower-snake-case keys the engine produces. -/
def upperAscii (c : Char) : Char :=
  if 'a' ≤ c ∧ c ≤ 'z' then Char.ofNat (c.toNat - 32) else c

/-- strings.ToUpper restricted to the ASCII keys the engine produces; used by
the resolver's automatic environment binding. -/
def toUpperAscii (s : String) : String := String.mk (s.data.map upperAscii)

/-- Namespace composition for one nested struct field (lines 72-81 and
145-154): an empty field tag keeps the ambient namespace; otherwise the tag
is underscore-appended to a non-empty ambient namespace. -/
def combinePfx (ambient tag : String) : String :=
  if tag = "" then ambient
  else if ambient = "" then tag
  else ambient ++ "_" ++ tag

/-- The qualified name of a leaf: ambient namespace, underscore, declared
name, the underscore join applied only when both are non-empty (lines 89-92
guarded by the name check at 85-88; lines 157-160 and the analogous guards in
every assignment case). -/
def qualify (pfx n : String) : String :=
  if pfx ≠ "" ∧ n ≠ "" then pfx ++ "_" ++ n else n

mutual
/-- Registration of one field (defineFlagsFromStructWithPrefix's loop body,
lines 69-127): nested structs recurse with the composed namespace; a leaf
with an empty name tag is skipped; otherwise one flag of the tag-declared
type is registered under the qualified name, except that an integer, float or
duration default that fails to parse skips the field silently. -/
def defineFlagsField : Field → String → List FlagDef
  | .nested tag _ sub, pfx => defineFlagsFromStructWithPfx sub (combinePfx pfx tag)
  | .leaf _ t, pfx =>
    if t.name = "" then []
    else
      let q := qualify pfx t.name
      if t.type = "string" then [⟨q, .str t.default, t.desc⟩]
      else if t.type = "[]string" then [⟨q, .strSlice (splitComma t.default), t.desc⟩]
      else if t.type = "int" then
        match parseIntGo t.default with
        | some i => [⟨q, .int i, t.desc⟩]
        | none => []
      else if t.type = "bool" then [⟨q, .bool (t.default = "true"), t.desc⟩]
      else if t.type = "float32" then
        match parseFloatGo t.default with
        | some x => [⟨q, .float32 x, t.desc⟩]
        | none => []
      else if t.type = "float64" then
        match parseFloatGo t.default with
        | some x => [⟨q, .float64 x, t.desc⟩]
        | none => []
      else if t.type = "duration" then
        match parseDurationGo t.default with
        | some d => [⟨q, .duration d, t.desc⟩]
        | none => []
      else []
/-- Embeds defineFlagsFromStructWithPrefix (lines 66-128): the flag
registrations produced by walking a field list under an ambient namespace. -/
def defineFlagsFromStructWithPfx : Fields → String → List FlagDef
  | .nil, _ => []
  | .cons f fs, pfx => defineFlagsField f pfx ++ defineFlagsFromStructWithPfx fs pfx
end

/-- Embeds defineFlagsFromStruct (lines 60-64): the walk with empty ambient
namespace. -/
def defineFlagsFromStruct (fs : Fields) : List FlagDef :=
  defineFlagsFromStructWithPfx fs ""

/-- The resolver capability at its interface boundary (spec sections 1, 3 and
6): the five viper accessors the engine consumes. -/
structure Resolver where
  getString : String → String
  getBool : String → Bool
  getInt64 : String → Int
  getFloat64 : String → Dec
  isSet : String → Bool

mutual
/-- Embeds setPropertiesFromFlagsWithPrefix's per-field switch (lines
141-213).  Nested structs recurse with the composed namespace; string fields
take the resolved string or, when it is empty, the default tag; bool, int,
float32 and float64 fields take the resolved value when the key is reported
set and the parsed default tag otherwise (an unparseable numeric default
leaves the field value untouched); fields of any other kind - notably Int64
(time.Duration) and Slice ([]string) - have no case in the switch and are
returned unchanged.  The Parse hook (lines 214-218), which is user code that
may further mutate the instance, is modelled separately by the event trace
below. -/
def setPropField : Field → GoVal → Resolver → String → GoVal
  | .nested tag _ sub, v, r, pfx =>
    match v with
    | .vStruct vs => .vStruct (setPropFields sub vs r (combinePfx pfx tag))
    | v => v
  | .leaf .kString t, v, r, pfx =>
    match v with
    | .vString _ =>
      let val := r.getString (qualify pfx t.name)
      .vString (if val = "" then t.default else val)
    | v => v
  | .leaf .kBool t, v, r, pfx =>
    match v with
    | .vBool _ =>
      let q := qualify pfx t.name
      .vBool (if r.isSet q then r.getBool q else t.default = "true")
    | v => v
  | .leaf .kInt t, v, r, pfx =>
    match v with
    | .vInt i =>
      let q := qualify pfx t.name
      if r.isSet q then .vInt (r.getInt64 q)
      else
        match parseIntGo t.default with
        | some d => .vInt d
        | none => .vInt i
    | v => v
  | .leaf .kFloat32 t, v, r, pfx =>
    match v with
    | .vFloat32 x =>
      let q := qualify pfx t.name
      if r.isSet q then .vFloat32 (r.getFloat64 q)
      else
        match parseFloatGo t.default with
        | some d => .vFloat32 d
        | none => .vFloat32 x
    | v => v
  | .leaf .kFloat64 t, v, r, pfx =>
    match v with
    | .vFloat64 x =>
      let q := qualify pfx t.name
      if r.isSet q then .vFloat64 (r.getFloat64 q)
      else
        match parseFloatGo t.default with
        | some d => .vFloat64 d
        | none => .vFloat64 x
    | v => v
  | .leaf .kInt64 _, v, _, _ => v
  | .leaf .kSlice _, v, _, _ => v
/-- Embeds setPropertiesFromFlagsWithPrefix's loop over a struct's fields
(lines 141-213), pairing each type field with the instance value it writes. -/
def setPropFields : Fields → GoVals → Resolver → String → GoVals
  | .nil, vs, _, _ => vs
  | .cons _ _, .vnil, _, _ => .vnil
  | .cons f fs, .vcons v vs, r, pfx =>
    .vcons (setPropField f v r pfx) (setPropFields fs vs r pfx)
end

/-- Embeds setPropertiesFromFlags (lines 130-134): the assignment walk with
empty ambient namespace. -/
def setPropertiesFromFlags (fs : Fields) (vs : GoVals) (r : Resolver) : GoVals :=
  setPropFields fs vs r ""

/-- Linear lookup of a flag by name in a flag set (pflag Lookup). -/
def lookupFlag : List FlagDef → String → Option FlagDef
  | [], _ => none
  | f :: fs, n => if f.name = n then some f else lookupFlag fs n

/-- The registered default of a bound flag, by key. -/
def flagDefault (bound : List FlagDef) (key : String) : Option FlagVal :=
  (lookupFlag bound key).map (fun f => f.defVal)

/-- The string cast the resolver applies to truthy raw values (cast.ToBool on
the string forms relevant here). -/
def castToBool (s : String) : Bool :=
  s = "1" ∨ s = "t" ∨ s = "T" ∨ s = "true" ∨ s = "TRUE" ∨ s = "True"

/-- The string form of a registered flag default, as the resolver's string
accessor returns it for a bound but otherwise unset key. -/
def fvToString : FlagVal → String
  | .str s => s
  | .bool b => if b then "true" else "false"
  | .int i => toString i
  | .strSlice xs => String.intercalate "," xs
  | .float32 _ => ""
  | .float64 _ => ""
  | .duration d => toString d

/-- A raw resolved value for a key, before falling back to flag defaults:
explicitly changed flag, then automatic environment (upper-cased key), then
configuration file.  This is the viper precedence order at the interface
boundary the spec fixes (spec sections 1 and 4.3); IsSet consults exactly
this, excluding pure flag defaults. -/
def rawLookup (changed env : String → Option String)
    (cfg : Option (String → Option String)) (key : String) : Option String :=
  match changed key with
  | some s => some s
  | none =>
    match env (toUpperAscii key) with
    | some s => some s
    | none =>
      match cfg with
      | some c => c key
      | none => none

/-- The resolver over bound flags, parsed command-line values, the process
environment and an optional loaded configuration file; models a viper
instance after AutomaticEnv and BindPFlags. -/
def mkResolver (bound : List FlagDef) (changed env : String → Option String)
    (cfg : Option (String → Option String)) : Resolver where
  getString := fun k =>
    match rawLookup changed env cfg k with
    | some s => s
    | none =>
      match flagDefault bound k with
      | some fv => fvToString fv
      | none => ""
  getBool := fun k =>
    match rawLookup changed env cfg k with
    | some s => castToBool s
    | none =>
      match flagDefault bound k with
      | some (.bool b) => b
      | _ => false
  getInt64 := fun k =>
    match rawLookup changed env cfg k with
    | some s => (parseIntGo s).getD 0
    | none =>
      match flagDefault bound k with
      | some (.int i) => i
      | some (.duration d) => d
      | _ => 0
  getFloat64 := fun k =>
    match rawLookup changed env cfg k with
    | some s => (parseFloatGo s).getD ⟨0, 0⟩
    | none =>
      match flagDefault bound k with
      | some (.float32 x) => x
      | some (.float64 x) => x
      | some (.int i) => ⟨i, 0⟩
      | _ => ⟨0, 0⟩
  isSet := fun k => (rawLookup changed env cfg k).isSome

/-- The empty source: no changed flags, no environment variables. -/
def noValues : String → Option String := fun _ => none

/-- The outcome of reading a configuration file at a path: the file is
missing (viper's ConfigFileNotFoundError branch), present but unparseable, or
parsed to a key/value table.  This is the file-read capability at the
resolver's boundary. -/
inductive ReadResult where
  | notFound
  | parseError (msg : String)
  | ok (data : String → Option String)

/-- Embeds CreateViper's body minus the global-flag plumbing (lines 249-268,
shared verbatim by CreateViperWithFlagSet at 272-289): build a resolver over
the given bound flags, and if the reserved config key resolves to a non-empty
path, load that file - a missing file and an unparseable file each terminate
with their own panic message, modelled as Except.error. -/
def createViperCore (bound : List FlagDef) (changed env : String → Option String)
    (files : String → ReadResult) : Except String Resolver :=
  let v := mkResolver bound changed env none
  if v.getString "config" ≠ "" then
    match files (v.getString "config") with
    | .notFound => .error "Could not find configuration file"
    | .parseError _ => .error "Could not parse configuration file"
    | .ok data => .ok (mkResolver bound changed env (some data))
  else
    .ok v

/-- The process-wide mutable flag-registration state, pflag.CommandLine. -/
structure PState where
  commandLine : List FlagDef
  deriving DecidableEq

/-- The reserved config-path flag registered by Config.generate (line 52). -/
def configFlagDef : FlagDef :=
  ⟨"config", .str "", "Path for a configuration file to load"⟩

/-- pflag AddFlagSet: add each flag of src whose name dst does not define. -/
def addFlagSet (dst src : List FlagDef) : List FlagDef :=
  match src with
  | [] => dst
  | f :: fs =>
    addFlagSet (if (lookupFlag dst f.name).isSome then dst else dst ++ [f]) fs

/-- Embeds CreateViper (lines 247-268): pflag.Parse has happened (its results
are the changed map) and the viper is bound to the process-wide
pflag.CommandLine. -/
def CreateViper (st : PState) (changed env : String → Option String)
    (files : String → ReadResult) : Except String Resolver :=
  createViperCore st.commandLine changed env files

/-- Embeds CreateViperWithFlagSet (lines 270-289): the viper is bound to the
caller's flag set; fs.Parse([]) leaves no changed flags. -/
def CreateViperWithFlagSet (fs : List FlagDef) (env : String → Option String)
    (files : String → ReadResult) : Except String Resolver :=
  createViperCore fs noValues env files

/-- Embeds Config.generate (lines 49-58): register the reserved config flag
into the process-wide flag set when absent, then build the resolver via
CreateViper - that is, bound to the process-wide flag set. -/
def generate (st : PState) (changed env : String → Option String)
    (files : String → ReadResult) : PState × Except String Resolver :=
  let cl :=
    if (lookupFlag st.commandLine "config").isSome then st.commandLine
    else st.commandLine ++ [configFlagDef]
  (⟨cl⟩, CreateViper ⟨cl⟩ changed env files)

/-- The outcome of one composition run: the process-wide state after the run,
the resolver (or the construction panic), and the instance as the engine's
assignment pass wrote it. -/
structure NCResult where
  state : PState
  resolver : Except String Resolver
  populated : GoVals

/-- Embeds NewConfig (lines 221-236): register the struct's flags into a
fresh local set, merge it into the process-wide set when merge is true
(the default for the absent variadic argument), run generate, then the
assignment pass. -/
def NewConfig (fields : Fields) (vals : GoVals) (merge : Bool) (st : PState)
    (changed env : String → Option String) (files : String → ReadResult) : NCResult :=
  let fs := defineFlagsFromStruct fields
  let st1 : PState := if merge then ⟨addFlagSet st.commandLine fs⟩ else st
  let gen := generate st1 changed env files
  match gen.2 with
  | .error e => ⟨gen.1, .error e, vals⟩
  | .ok r => ⟨gen.1, .ok r, setPropertiesFromFlags fields vals r⟩

/-- The outcome of NewConfigWithFlagSet: additionally the caller-supplied
flag set after the call. -/
structure WFSResult where
  flagSet : List FlagDef
  state : PState
  resolver : Except String Resolver
  populated : GoVals

/-- Embeds NewConfigWithFlagSet (lines 238-245): register the struct's flags
into the caller-supplied set, then run generate - which still touches the
process-wide set and binds the resolver to it - and the assignment pass. -/
def NewConfigWithFlagSet (fields : Fields) (vals : GoVals) (fs : List FlagDef)
    (st : PState) (changed env : String → Option String)
    (files : String → ReadResult) : WFSResult :=
  let fs2 := fs ++ defineFlagsFromStruct fields
  let gen := generate st changed env files
  match gen.2 with
  | .error e => ⟨fs2, gen.1, .error e, vals⟩
  | .ok r => ⟨fs2, gen.1, .ok r, setPropertiesFromFlags fields vals r⟩

/-- A Go type as reflect sees it for HasConfig: a pointer type or a named
non-pointer type. -/
inductive RType where
  | ptr (t : RType)
  | base (nm : String)
  deriving DecidableEq, Repr

/-- One pointer dereference: reflect's targetType.Elem() applied when the
kind is Ptr (lines 33-36). -/
def derefOnce : RType → RType
  | .ptr t => t
  | t => t

/-- The field types of the base Config struct itself: its sole field is
viper *viper.Viper (lines 21-23); HasConfig iterates exactly these. -/
def configStructFields : List RType := [RType.ptr (RType.base "viper.Viper")]

/-- Embeds Config.HasConfig (lines 31-46): dereference the argument's type
once if it is a pointer, then compare it against each field type of the base
Config struct. -/
def hasConfig (checkType : RType) : Bool :=
  configStructFields.any (fun f => f = derefOnce checkType)

/-- An event of the assignment walk: a leaf write, or a Parse-hook call on
the struct level at a path of field indices from the root. -/
inductive Ev where
  | assign (path : List Nat)
  | hook (path : List Nat)
  deriving DecidableEq, Repr

/-- The path of an event. -/
def Ev.pathOf : Ev → List Nat
  | .assign p => p
  | .hook p => p

/-- The kinds the assignment switch writes (its String, Bool, Int, Float32
and Float64 cases). -/
def assignedKind : GoKind → Bool
  | .kString => true
  | .kBool => true
  | .kInt => true
  | .kFloat32 => true
  | .kFloat64 => true
  | .kInt64 => false
  | .kSlice => false

mutual
/-- The event trace of one field of the assignment walk, at the given path:
an assigned leaf emits its write; a nested struct emits its own sub-walk
followed by its Parse-hook call when it exposes one (lines 214-218 run after
the loop over that level's fields). -/
def traceField : Field → List Nat → List Ev
  | .leaf kind _, p => if assignedKind kind then [.assign p] else []
  | .nested _ hp sub, p => traceFields sub p 0 ++ (if hp then [Ev.hook p] else [])
/-- The event trace of a field list, fields indexed from i under path p. -/
def traceFields : Fields → List Nat → Nat → List Ev
  | .nil, _, _ => []
  | .cons f fs, p, i => traceField f (p ++ [i]) ++ traceFields fs p (i + 1)
end

/-- The event trace of one composition run on a root struct (the single
setPropertiesFromFlags call of NewConfig line 234): the root level's fields,
then the root's own Parse hook when it exposes one. -/
def runTrace (fields : Fields) (rootHasParse : Bool) : List Ev :=
  traceFields fields [] 0 ++ (if rootHasParse then [Ev.hook []] else [])

/-- The field at one index of a field list. -/
def fieldsGet : Fields → Nat → Option Field
  | .nil, _ => none
  | .cons f _, 0 => some f
  | .cons _ fs, n + 1 => fieldsGet fs n

/-- The struct level addressed by a path of field indices: the root itself at
the empty path, else descend through nested fields.  Returns that level's
field list and whether it exposes a Parse hook. -/
def levelAt : Fields → Bool → List Nat → Option (Fields × Bool)
  | fs, hp, [] => some (fs, hp)
  | fs, _, i :: rest =>
    match fieldsGet fs i with
    | some (.nested _ hq sub) => levelAt sub hq rest
    | _ => none

/-- Underscore join of a list of segments (spec wording). -/
def underscoreJoin : List String → String
  | [] => ""
  | [p] => p
  | p :: ps => p ++ "_" ++ underscoreJoin ps

/-- Spec-side definition (spec section 3): the underscore-join of the
non-empty ancestor namespace tags in root-to-leaf order.  Stated from the
spec's words, to be compared with the code's fold of combinePfx. -/
def joinNonEmpty (ps : List String) : String :=
  underscoreJoin (ps.filter (fun p => p ≠ ""))

/-- The code's accumulation of an ambient namespace over a chain of nested
struct tags, in root-to-leaf order. -/
def foldCombinePfx : String → List String → String
  | amb, [] => amb
  | amb, p :: ps => foldCombinePfx (combinePfx amb p) ps

/-- A struct chain: the given field wrapped in one single-field nested struct
per namespace tag, outermost tag first.  Realises arbitrary nesting depth. -/
def chainFields : List String → Field → Fields
  | [], f => .cons f .nil
  | p :: ps, f => .cons (.nested p false (chainFields ps f)) .nil

/-- The instance values mirroring chainFields. -/
def chainVals : List String → GoVal → GoVals
  | [], v => .vcons v .vnil
  | _ :: ps, v => .vcons (.vStruct (chainVals ps v)) .vnil

/-- The two-level fixture of the claimed example: outer namespace tag
`outer` declaring a string field `field`, containing an inner struct with
tag `inner` declaring its own string field `field`. -/
def exOuterInner : Fields :=
  .cons
    (.nested "outer" false
      (.cons (.leaf .kString ⟨"field", "string", "d1", ""⟩)
        (.cons
          (.nested "inner" false
            (.cons (.leaf .kString ⟨"field", "string", "d2", ""⟩) .nil))
          .nil)))
    .nil

/-- Zero values mirroring exOuterInner. -/
def exOuterInnerZero : GoVals :=
  .vcons
    (.vStruct
      (.vcons (.vString "")
        (.vcons (.vStruct (.vcons (.vString "") .vnil)) .vnil)))
    .vnil

/-- The environment of the claimed example: OUTER_FIELD=a and
OUTER_INNER_FIELD=b. -/
def envOuterInner : String → Option String := fun k =>
  if k = "OUTER_FIELD" then some "a"
  else if k = "OUTER_INNER_FIELD" then some "b"
  else none

/-- The resolver of the claimed example: the example struct's flags bound, no
changed flags, the two environment variables, no file. -/
def rOuterInner : Resolver :=
  mkResolver (defineFlagsFromStruct exOuterInner) noValues envOuterInner none

/-- A root struct embedding one nested struct that exposes a Parse hook and
declares one string field; the hook fixture for the trace claims. -/
def exHookStruct : Fields :=
  .cons
    (.nested "db" true
      (.cons (.leaf .kString ⟨"dbhost", "string", "localhost", ""⟩) .nil))
    .nil

/-- An empty namespace is the identity of combinePfx on the left. -/
theorem combinePfx_empty_left (x : String) : combinePfx "" x = x := by
  by_cases h : x = "" <;> simp [combinePfx, h]

/-- An underscore-joined pair of segments is never the empty string. -/
theorem appendUnderscore_ne (a b : String) : a ++ "_" ++ b ≠ "" := by
  intro h
  have hl := congrArg String.length h
  simp [String.length_append] at hl
  exact absurd hl.1.2 (by decide)

/-- Right-associated form of appendUnderscore_ne. -/
theorem appendUnderscore_ne2 (a b : String) : a ++ ("_" ++ b) ≠ "" := by
  rw [← String.append_assoc]; exact appendUnderscore_ne a b

/-- combinePfx is associative. -/
theorem combinePfx_assoc (a b c : String) :
    combinePfx (combinePfx a b) c = combinePfx a (combinePfx b c) := by
  by_cases hb : b = "" <;> by_cases hc : c = "" <;> by_cases ha : a = "" <;>
    simp [combinePfx, ha, hb, hc, appendUnderscore_ne, appendUnderscore_ne2,
      String.append_assoc]

/-- An underscore join of non-empty segments is non-empty. -/
theorem underscoreJoin_ne : ∀ (l : List String), (∀ x ∈ l, x ≠ "") → l ≠ [] →
    underscoreJoin l ≠ ""
  | [], _, hne => absurd rfl hne
  | [x], h, _ => by simpa [underscoreJoin] using h x (by simp)
  | x :: y :: l, _, _ => by
    show x ++ "_" ++ underscoreJoin (y :: l) ≠ ""
    exact appendUnderscore_ne _ _

/-- Prepending a non-empty segment to a join of non-empty segments is one
combinePfx step. -/
theorem underscoreJoin_cons_ne (p : String) (l : List String) (hp : p ≠ "")
    (hl : ∀ x ∈ l, x ≠ "") :
    underscoreJoin (p :: l) = combinePfx p (underscoreJoin l) := by
  cases l with
  | nil => simp [underscoreJoin, combinePfx, hp]
  | cons y l2 =>
    have hne : underscoreJoin (y :: l2) ≠ "" := underscoreJoin_ne _ hl (by simp)
    show p ++ "_" ++ underscoreJoin (y :: l2) = _
    simp [combinePfx, hp, hne]

/-- The spec's join of non-empty segments satisfies the code's one-step
composition law. -/
theorem joinNonEmpty_cons (p : String) (ps : List String) :
    joinNonEmpty (p :: ps) = combinePfx p (joinNonEmpty ps) := by
  by_cases hp : p = ""
  · simp [joinNonEmpty, hp, combinePfx_empty_left]
  · have hf : List.filter (fun x => decide (x ≠ "")) (p :: ps)
        = p :: List.filter (fun x => decide (x ≠ "")) ps := by simp [hp]
    unfold joinNonEmpty
    rw [hf, underscoreJoin_cons_ne p _ hp
      (fun x hx => by simpa using List.of_mem_filter hx)]

/-- The code's accumulation of the ambient namespace along a chain equals one
combinePfx step against the spec's join. -/
theorem foldCombinePfx_join : ∀ (ps : List String) (amb : String),
    foldCombinePfx amb ps = combinePfx amb (joinNonEmpty ps)
  | [], amb => by simp [foldCombinePfx, joinNonEmpty, underscoreJoin, combinePfx]
  | p :: ps, amb => by
    show foldCombinePfx (combinePfx amb p) ps = _
    rw [foldCombinePfx_join ps (combinePfx amb p), joinNonEmpty_cons, ← combinePfx_assoc]

/-- Registration on a chain of single-field nested structs reduces to the
leaf's registration under the accumulated namespace. -/
theorem defineFlags_chain : ∀ (ps : List String) (pfx : String) (f : Field),
    defineFlagsFromStructWithPfx (chainFields ps f) pfx
      = defineFlagsField f (foldCombinePfx pfx ps)
  | [], pfx, f => by
    simp [chainFields, defineFlagsFromStructWithPfx, foldCombinePfx]
  | p :: ps, pfx, f => by
    simp [chainFields, defineFlagsFromStructWithPfx, defineFlagsField, foldCombinePfx,
      defineFlags_chain ps (combinePfx pfx p) f]

/-- Assignment on a chain of single-field nested structs reduces to the
leaf's assignment under the accumulated namespace. -/
theorem setProp_chain : ∀ (ps : List String) (pfx : String) (f : Field) (v : GoVal)
    (r : Resolver),
    setPropFields (chainFields ps f) (chainVals ps v) r pfx
      = chainVals ps (setPropField f v r (foldCombinePfx pfx ps))
  | [], pfx, f, v, r => by
    simp [chainFields, chainVals, setPropFields, foldCombinePfx]
  | p :: ps, pfx, f, v, r => by
    simp [chainFields, chainVals, setPropFields, setPropField, foldCombinePfx,
      setProp_chain ps (combinePfx pfx p) f v r]

/-- C1: at arbitrary nesting depth, the code's accumulated namespace equals
the spec's underscore-join of the non-empty ancestor tags; a leaf registers
its flag under that join underscore-appended to its declared name (the name
alone when the join is empty), and the assignment pass reads the resolver
under exactly the same qualified name.  In particular the outer/inner
example yields the qualified names outer_field and outer_inner_field, and the
environment variables OUTER_FIELD=a and OUTER_INNER_FIELD=b populate the two
instance fields independently. -/
theorem C1_qualified_names (ps : List String) (k : GoKind) (t : Tags)
    (hn : t.name ≠ "") :
    (foldCombinePfx "" ps = joinNonEmpty ps) ∧
    (t.type = "string" →
      defineFlagsFromStruct (chainFields ps (.leaf k t))
        = [⟨qualify (joinNonEmpty ps) t.name, .str t.default, t.desc⟩]) ∧
    (∀ (r : Resolver) (s0 : String),
      setPropertiesFromFlags (chainFields ps (.leaf .kString t))
          (chainVals ps (.vString s0)) r
        = chainVals ps (.vString
            (if r.getString (qualify (joinNonEmpty ps) t.name) = "" then t.default
             else r.getString (qualify (joinNonEmpty ps) t.name)))) ∧
    ((defineFlagsFromStruct exOuterInner).map FlagDef.name
      = ["outer_field", "outer_inner_field"]) ∧
    (setPropertiesFromFlags exOuterInner exOuterInnerZero rOuterInner
      = .vcons (.vStruct (.vcons (.vString "a")
          (.vcons (.vStruct (.vcons (.vString "b") .vnil)) .vnil))) .vnil) := by
  have hj : foldCombinePfx "" ps = joinNonEmpty ps := by
    rw [foldCombinePfx_join]; exact combinePfx_empty_left _
  refine ⟨hj, ?_, ?_, rfl, rfl⟩
  · intro ht
    rw [defineFlagsFromStruct, defineFlags_chain, hj]
    simp [defineFlagsField, hn, ht]
  · intro r s0
    rw [setPropertiesFromFlags, setProp_chain, hj]
    simp [setPropField]

/-- C1 witness: the general statement applied to a chain with tags
outer, "" and inner gives the flag name outer_inner_field. -/
theorem C1_qualified_names_witness :
    defineFlagsFromStruct
        (chainFields ["outer", "", "inner"] (.leaf .kString ⟨"field", "string", "d", ""⟩))
      = [⟨"outer_inner_field", .str "d", ""⟩] :=
  (C1_qualified_names ["outer", "", "inner"] .kString ⟨"field", "string", "d", ""⟩
    (by decide)).2.1 rfl

/-- C4: for a text leaf, when the resolved string for the qualified name is
empty the assignment pass writes the declared default tag instead, so an
explicitly-set empty string and an unset key (where the string accessor falls
back to the registered default) populate the same value. -/
theorem C4_empty_text_falls_back (t : Tags) (pfx : String) (r : Resolver) (s0 : String)
    (h : r.getString (qualify pfx t.name) = "" ∨
      r.getString (qualify pfx t.name) = t.default) :
    setPropField (.leaf .kString t) (.vString s0) r pfx = .vString t.default := by
  cases h with
  | inl h => simp [setPropField, h]
  | inr h => simp [setPropField, h, ite_self]

/-- C4 witness: an unbound resolver resolves the key to the empty string and
the field populates with its default. -/
theorem C4_empty_text_falls_back_witness :
    setPropField (.leaf .kString ⟨"n", "string", "dflt", "d"⟩) (.vString "old")
        (mkResolver [] noValues noValues none) "" = .vString "dflt" :=
  C4_empty_text_falls_back ⟨"n", "string", "dflt", "d"⟩ "" _ "old" (Or.inl rfl)

/-- C8: a boolean leaf's registered default is true exactly when the default
tag is the literal string true, and the assignment pass uses that conversion
unless the resolver reports the qualified name set, in which case the
resolved boolean is written. -/
theorem C8_bool_conversion (t : Tags) (pfx : String) (hn : t.name ≠ "")
    (ht : t.type = "bool") :
    (defineFlagsField (.leaf .kBool t) pfx
      = [⟨qualify pfx t.name, .bool (decide (t.default = "true")), t.desc⟩]) ∧
    (∀ (r : Resolver) (b0 : Bool), r.isSet (qualify pfx t.name) = false →
      setPropField (.leaf .kBool t) (.vBool b0) r pfx
        = .vBool (decide (t.default = "true"))) ∧
    (∀ (r : Resolver) (b0 : Bool), r.isSet (qualify pfx t.name) = true →
      setPropField (.leaf .kBool t) (.vBool b0) r pfx
        = .vBool (r.getBool (qualify pfx t.name))) := by
  refine ⟨?_, ?_, ?_⟩
  · simp [defineFlagsField, hn, ht]
  · intro r b0 h; simp [setPropField, h]
  · intro r b0 h; simp [setPropField, h]

/-- C8 witness: the defaults TRUE, the empty string and 1 all register and
populate as false. -/
theorem C8_bool_conversion_witness :
    defineFlagsField (.leaf .kBool ⟨"log_compress", "bool", "TRUE", ""⟩) ""
        = [⟨"log_compress", .bool false, ""⟩] ∧
    defineFlagsField (.leaf .kBool ⟨"a", "bool", "", ""⟩) ""
        = [⟨"a", .bool false, ""⟩] ∧
    defineFlagsField (.leaf .kBool ⟨"b", "bool", "1", ""⟩) ""
        = [⟨"b", .bool false, ""⟩] ∧
    setPropField (.leaf .kBool ⟨"log_compress", "bool", "TRUE", ""⟩) (.vBool true)
        (mkResolver [] noValues noValues none) "" = .vBool false := by
  refine ⟨?_, ?_, ?_, ?_⟩
  · exact (C8_bool_conversion ⟨"log_compress", "bool", "TRUE", ""⟩ "" (by decide) rfl).1
  · exact (C8_bool_conversion ⟨"a", "bool", "", ""⟩ "" (by decide) rfl).1
  · exact (C8_bool_conversion ⟨"b", "bool", "1", ""⟩ "" (by decide) rfl).1
  · exact (C8_bool_conversion ⟨"log_compress", "bool", "TRUE", ""⟩ "" (by decide)
      rfl).2.1 _ true rfl

/-- C9: a duration leaf with a parseable default registers a flag, and a
list-of-text leaf always registers one, but the assignment switch has no
case for the Int64 or Slice kinds, so such fields pass through the assignment
pass unchanged for every resolver - and a whole composition run leaves a
duration field at its initial (zero) value. -/
theorem C9_duration_slice_never_assigned (t u : Tags) (pfx : String)
    (hn : t.name ≠ "") (ht : t.type = "duration")
    (hun : u.name ≠ "") (hut : u.type = "[]string") :
    (∀ d, parseDurationGo t.default = some d →
      defineFlagsField (.leaf .kInt64 t) pfx
        = [⟨qualify pfx t.name, .duration d, t.desc⟩]) ∧
    (defineFlagsField (.leaf .kSlice u) pfx
      = [⟨qualify pfx u.name, .strSlice (splitComma u.default), u.desc⟩]) ∧
    (∀ (r : Resolver) (v : GoVal), setPropField (.leaf .kInt64 t) v r pfx = v) ∧
    (∀ (r : Resolver) (v : GoVal), setPropField (.leaf .kSlice u) v r pfx = v) ∧
    (∀ (merge : Bool) (st : PState) (changed env : String → Option String)
        (files : String → ReadResult) (v : GoVal),
      (NewConfig (.cons (.leaf .kInt64 t) .nil) (.vcons v .vnil) merge st changed
          env files).populated = .vcons v .vnil) := by
  refine ⟨?_, ?_, fun r v => rfl, fun r v => rfl, ?_⟩
  · intro d hd; simp [defineFlagsField, hn, ht, hd]
  · simp [defineFlagsField, hun, hut]
  · intro merge st changed env files v
    rw [NewConfig]
    split
    · rfl
    · rfl

/-- C9 witness: the repository's timeout field (duration, default 15s)
registers its flag, and a run over a single-field struct holding it leaves
the instance value at zero. -/
theorem C9_duration_slice_never_assigned_witness :
    defineFlagsField (.leaf .kInt64 ⟨"timeout", "duration", "15s", "t"⟩) ""
        = [⟨"timeout", .duration 15000000000, "t"⟩] ∧
    (NewConfig (.cons (.leaf .kInt64 ⟨"timeout", "duration", "15s", "t"⟩) .nil)
        (.vcons (.vInt64 0) .vnil) true ⟨[]⟩ noValues noValues
        (fun _ => .notFound)).populated = .vcons (.vInt64 0) .vnil := by
  have h := C9_duration_slice_never_assigned ⟨"timeout", "duration", "15s", "t"⟩
    ⟨"names", "[]string", "", ""⟩ "" (by decide) rfl (by decide) rfl
  exact ⟨h.1 15000000000 (by decide), h.2.2.2.2 true ⟨[]⟩ noValues noValues _ _⟩

/-- C10: HasConfig inspects only the base Config struct's own fields, whose
sole field type is the viper pointer, so every argument whose once
dereferenced type is not that pointer - in particular every prebuilt
configuration type such as DatabaseConfig, pointered or not - yields false. -/
theorem C10_hasConfig_base_only (ty : RType)
    (h : derefOnce ty ≠ RType.ptr (RType.base "viper.Viper")) :
    hasConfig ty = false ∧
    hasConfig (RType.base "coil.DatabaseConfig") = false ∧
    hasConfig (RType.ptr (RType.base "coil.DatabaseConfig")) = false ∧
    hasConfig (RType.ptr (RType.base "viper.Viper")) = false := by
  refine ⟨?_, by decide, by decide, by decide⟩
  simp [hasConfig, configStructFields, List.any]
  exact fun he => absurd he.symm h

/-- C10 witness: the DatabaseConfig value itself. -/
theorem C10_hasConfig_base_only_witness :
    hasConfig (RType.base "DatabaseConfig") = false :=
  (C10_hasConfig_base_only (RType.base "DatabaseConfig") (by decide)).1

/-- C7: when the reserved config key resolves to a non-empty path, resolver
construction is fatal on a missing file and fatal on an unparseable file,
with two distinct messages and no recoverable outcome; the only non-error
outcome is a successfully loaded file.  CreateViper and
CreateViperWithFlagSet share this body verbatim. -/
theorem C7_config_file_fatal (bound : List FlagDef)
    (changed env : String → Option String) (files : String → ReadResult)
    (path : String)
    (hpath : (mkResolver bound changed env none).getString "config" = path)
    (hne : path ≠ "") :
    (files path = .notFound →
      createViperCore bound changed env files
        = .error "Could not find configuration file") ∧
    (∀ m, files path = .parseError m →
      createViperCore bound changed env files
        = .error "Could not parse configuration file") ∧
    (∀ data, files path = .ok data →
      createViperCore bound changed env files
        = .ok (mkResolver bound changed env (some data))) ∧
    (∀ st : PState, CreateViper st changed env files
      = createViperCore st.commandLine changed env files) ∧
    (CreateViperWithFlagSet bound env files
      = createViperCore bound noValues env files) ∧
    ("Could not find configuration file" ≠ "Could not parse configuration file") := by
  refine ⟨?_, ?_, ?_, fun st => rfl, rfl, by decide⟩
  · intro h; simp [createViperCore, hpath, hne, h]
  · intro m h; simp [createViperCore, hpath, hne, h]
  · intro data h; simp [createViperCore, hpath, hne, h]

/-- C7 witness: with CONFIG set in the environment and the file missing,
construction fails with the find message. -/
theorem C7_config_file_fatal_witness :
    createViperCore [] noValues
        (fun k => if k = "CONFIG" then some "/etc/app.yaml" else none)
        (fun _ => .notFound) = .error "Could not find configuration file" :=
  (C7_config_file_fatal [] noValues
    (fun k => if k = "CONFIG" then some "/etc/app.yaml" else none)
    (fun _ => .notFound) "/etc/app.yaml" rfl (by decide)).1 rfl

/-- C6 counterexample: a text leaf with no name tag and default tag x is not
excluded from the assignment pass - against a resolver with nothing set it is
written with x, not left at its zero value (the empty string). -/
theorem C6_counterexample :
    setPropField (.leaf .kString ⟨"", "string", "x", ""⟩) (.vString "")
        (mkResolver [] noValues noValues none) "" = .vString "x" ∧
    GoVal.vString "x" ≠ GoVal.vString "" := by
  refine ⟨rfl, ?_⟩
  intro h
  injection h with h2
  exact absurd h2 (by decide)

/-- C6 amended: a field lacking a name tag, and an integer field whose
default fails to parse, are silently excluded from flag registration; the
assignment pass however does not skip them: the nameless field is looked up
under the empty key (the namespace is not applied) and, when the resolver
reports nothing there, receives its declared default tag; the bad-default
field is still written from the resolver whenever its qualified name is
reported set (for example by an environment variable), and keeps its prior
zero value only when it is not. -/
theorem C6_amended (t u : Tags) (ht : t.name = "") (hu : u.name ≠ "")
    (hut : u.type = "int") (hp : parseIntGo u.default = none) :
    (∀ (kind : GoKind) (pfx : String), defineFlagsField (.leaf kind t) pfx = []) ∧
    (∀ pfx : String, defineFlagsField (.leaf .kInt u) pfx = []) ∧
    (∀ (pfx : String) (r : Resolver) (s0 : String), r.getString "" = "" →
      setPropField (.leaf .kString t) (.vString s0) r pfx = .vString t.default) ∧
    (∀ (pfx : String) (r : Resolver) (i0 : Int),
      r.isSet (qualify pfx u.name) = true →
      setPropField (.leaf .kInt u) (.vInt i0) r pfx
        = .vInt (r.getInt64 (qualify pfx u.name))) ∧
    (∀ (pfx : String) (r : Resolver) (i0 : Int),
      r.isSet (qualify pfx u.name) = false →
      setPropField (.leaf .kInt u) (.vInt i0) r pfx = .vInt i0) := by
  refine ⟨?_, ?_, ?_, ?_, ?_⟩
  · intro kind pfx; simp [defineFlagsField, ht]
  · intro pfx; simp [defineFlagsField, hu, hut, hp]
  · intro pfx r s0 h; simp [setPropField, qualify, ht, h]
  · intro pfx r i0 h; simp [setPropField, h]
  · intro pfx r i0 h; simp [setPropField, h, hp]

/-- C6 amended witness: a nameless text field with default x registers
nothing yet populates with x, and an integer field with unparseable default
registers nothing yet takes the resolver value 7 when its key is set. -/
theorem C6_amended_witness :
    defineFlagsField (.leaf .kString ⟨"", "string", "x", ""⟩) "" = [] ∧
    defineFlagsField (.leaf .kInt ⟨"port", "int", "NaN", ""⟩) "" = [] ∧
    setPropField (.leaf .kString ⟨"", "string", "x", ""⟩) (.vString "")
        (mkResolver [] noValues noValues none) "" = .vString "x" ∧
    setPropField (.leaf .kInt ⟨"port", "int", "NaN", ""⟩) (.vInt 0)
        (mkResolver [] noValues (fun k => if k = "PORT" then some "7" else none) none)
        "" = .vInt 7 := by
  have h := C6_amended ⟨"", "string", "x", ""⟩ ⟨"port", "int", "NaN", ""⟩ rfl
    (by decide) rfl rfl
  exact ⟨h.1 .kString "", h.2.1 "", h.2.2.1 "" _ "" rfl, h.2.2.2.1 "" _ 0 rfl⟩

/-- C2 counterexample: a call to NewConfigWithFlagSet on an empty global flag
set mutates it - the generate step registers the reserved config flag into
the process-wide set. -/
theorem C2_counterexample :
    (NewConfigWithFlagSet .nil .vnil [] ⟨[]⟩ noValues noValues
        (fun _ => ReadResult.notFound)).state ≠ ⟨[]⟩ := by
  intro h
  have h2 : (⟨[configFlagDef]⟩ : PState) = ⟨[]⟩ := h
  injection h2 with h3
  exact absurd h3 (by simp)

/-- C2 amended: NewConfigWithFlagSet registers the struct-derived flags
against only the caller-supplied flag set and never merges them into the
process-wide set; but its generate step still adds the reserved config flag
to the process-wide set when absent, and the resolver it constructs is bound
to the process-wide set (not the supplied one), so process-wide
flag-registration state is both mutated and consulted. -/
theorem C2_amended (fields : Fields) (vals : GoVals) (fs : List FlagDef)
    (st : PState) (changed env : String → Option String)
    (files : String → ReadResult) :
    ((NewConfigWithFlagSet fields vals fs st changed env files).flagSet
      = fs ++ defineFlagsFromStruct fields) ∧
    ((NewConfigWithFlagSet fields vals fs st changed env files).state.commandLine
        = st.commandLine ∨
      (NewConfigWithFlagSet fields vals fs st changed env files).state.commandLine
        = st.commandLine ++ [configFlagDef]) ∧
    ((lookupFlag st.commandLine "config").isSome = true →
      (NewConfigWithFlagSet fields vals fs st changed env files).state.commandLine
        = st.commandLine) ∧
    ((NewConfigWithFlagSet fields vals fs st changed env files).resolver
      = CreateViper (NewConfigWithFlagSet fields vals fs st changed env files).state
          changed env files) := by
  refine ⟨?_, ?_, ?_, ?_⟩
  · rw [NewConfigWithFlagSet]; split <;> rfl
  · rw [NewConfigWithFlagSet]
    split <;> (rw [generate]; by_cases h : (lookupFlag st.commandLine "config").isSome
      <;> simp [h])
  · intro h
    rw [NewConfigWithFlagSet]
    split <;> (rw [generate]; simp [h])
  · rw [NewConfigWithFlagSet]
    split <;> rename_i heq <;>
      (rw [generate] at heq ⊢;
       by_cases h : (lookupFlag st.commandLine "config").isSome <;>
         simp [h] at heq ⊢ <;> rw [heq])

/-- In the fully unset scenario (fresh global state, no changed flags, no
environment), composing a single-leaf struct binds the leaf's flag and the
reserved config flag and hands the assignment pass the resolver over exactly
those, with no file loaded. -/
theorem newConfig_empty_populated (k : GoKind) (t : Tags) (f : FlagDef) (v0 : GoVal)
    (files : String → ReadResult)
    (hreg : defineFlagsField (.leaf k t) "" = [f]) (hfn : f.name ≠ "config") :
    (NewConfig (.cons (.leaf k t) .nil) (.vcons v0 .vnil) true ⟨[]⟩ noValues
        noValues files).populated
      = .vcons (setPropField (.leaf k t) v0
          (mkResolver [f, configFlagDef] noValues noValues none) "") .vnil := by
  have hfs : defineFlagsFromStruct (.cons (.leaf k t) .nil) = [f] := by
    simp [defineFlagsFromStruct, defineFlagsFromStructWithPfx, hreg]
  have hadd : addFlagSet [] [f] = [f] := by simp [addFlagSet, lookupFlag]
  have hl : lookupFlag [f] "config" = none := by simp [lookupFlag, hfn]
  have hgs : (mkResolver [f, configFlagDef] noValues noValues none).getString
      "config" = "" := by
    simp [mkResolver, rawLookup, noValues, flagDefault, lookupFlag, hfn,
      configFlagDef, fvToString]
  have hgen : generate ⟨[f]⟩ noValues noValues files
      = (⟨[f, configFlagDef]⟩,
         .ok (mkResolver [f, configFlagDef] noValues noValues none)) := by
    rw [generate]
    simp [hl, CreateViper, createViperCore, hgs]
  simp [NewConfig, hfs, hadd, hgen, setPropertiesFromFlags, setPropFields]

/-- C5 amended: for a leaf field of one of the five kinds the assignment
switch writes (text, boolean, integer, float32, float64) whose default tag is
a valid literal for its declared type, composing with nothing set in flags,
environment or file yields the parsed default on the populated instance.
(Duration and list-of-text leaves are excluded: the switch never writes them,
see the counterexample.) -/
theorem C5_amended (t : Tags) (hn : t.name ≠ "") (hc : t.name ≠ "config")
    (files : String → ReadResult) :
    (t.type = "string" → ∀ s0 : String,
      (NewConfig (.cons (.leaf .kString t) .nil) (.vcons (.vString s0) .vnil) true
          ⟨[]⟩ noValues noValues files).populated
        = .vcons (.vString t.default) .vnil) ∧
    (t.type = "bool" → ∀ b0 : Bool,
      (NewConfig (.cons (.leaf .kBool t) .nil) (.vcons (.vBool b0) .vnil) true
          ⟨[]⟩ noValues noValues files).populated
        = .vcons (.vBool (decide (t.default = "true"))) .vnil) ∧
    (∀ i : Int, t.type = "int" → parseIntGo t.default = some i →
      (NewConfig (.cons (.leaf .kInt t) .nil) (.vcons (.vInt 0) .vnil) true
          ⟨[]⟩ noValues noValues files).populated
        = .vcons (.vInt i) .vnil) ∧
    (∀ x : Dec, t.type = "float32" → parseFloatGo t.default = some x →
      (NewConfig (.cons (.leaf .kFloat32 t) .nil) (.vcons (.vFloat32 ⟨0, 0⟩) .vnil)
          true ⟨[]⟩ noValues noValues files).populated
        = .vcons (.vFloat32 x) .vnil) ∧
    (∀ x : Dec, t.type = "float64" → parseFloatGo t.default = some x →
      (NewConfig (.cons (.leaf .kFloat64 t) .nil) (.vcons (.vFloat64 ⟨0, 0⟩) .vnil)
          true ⟨[]⟩ noValues noValues files).populated
        = .vcons (.vFloat64 x) .vnil) := by
  refine ⟨?_, ?_, ?_, ?_, ?_⟩
  · intro ht s0
    have hreg : defineFlagsField (.leaf .kString t) ""
        = [⟨t.name, .str t.default, t.desc⟩] := by
      simp [defineFlagsField, hn, ht, qualify]
    rw [newConfig_empty_populated .kString t _ (.vString s0) files hreg hc]
    simp [setPropField, qualify, mkResolver, rawLookup, noValues, flagDefault,
      lookupFlag, fvToString, configFlagDef, ite_self]
  · intro ht b0
    have hreg : defineFlagsField (.leaf .kBool t) ""
        = [⟨t.name, .bool (decide (t.default = "true")), t.desc⟩] := by
      simp [defineFlagsField, hn, ht, qualify]
    rw [newConfig_empty_populated .kBool t _ (.vBool b0) files hreg hc]
    simp [setPropField, qualify, mkResolver, rawLookup, noValues]
  · intro i ht hp
    have hreg : defineFlagsField (.leaf .kInt t) ""
        = [⟨t.name, .int i, t.desc⟩] := by
      simp [defineFlagsField, hn, ht, hp, qualify]
    rw [newConfig_empty_populated .kInt t _ (.vInt 0) files hreg hc]
    simp [setPropField, qualify, mkResolver, rawLookup, noValues, hp]
  · intro x ht hp
    have hreg : defineFlagsField (.leaf .kFloat32 t) ""
        = [⟨t.name, .float32 x, t.desc⟩] := by
      simp [defineFlagsField, hn, ht, hp, qualify]
    rw [newConfig_empty_populated .kFloat32 t _ (.vFloat32 ⟨0, 0⟩) files hreg hc]
    simp [setPropField, qualify, mkResolver, rawLookup, noValues, hp]
  · intro x ht hp
    have hreg : defineFlagsField (.leaf .kFloat64 t) ""
        = [⟨t.name, .float64 x, t.desc⟩] := by
      simp [defineFlagsField, hn, ht, hp, qualify]
    rw [newConfig_empty_populated .kFloat64 t _ (.vFloat64 ⟨0, 0⟩) files hreg hc]
    simp [setPropField, qualify, mkResolver, rawLookup, noValues, hp]

/-- C5 counterexample: the claim fails for a duration leaf - its default 15s
is a valid duration literal and registers a flag, yet composing with nothing
set leaves the populated instance at zero, not at the parsed default. -/
theorem C5_counterexample :
    (NewConfig (.cons (.leaf .kInt64 ⟨"timeout", "duration", "15s", "t"⟩) .nil)
        (.vcons (.vInt64 0) .vnil) true ⟨[]⟩ noValues noValues
        (fun _ => .notFound)).populated = .vcons (.vInt64 0) .vnil ∧
    parseDurationGo "15s" = some 15000000000 ∧
    (0 : Int) ≠ 15000000000 :=
  ⟨rfl, by decide, by decide⟩

/-- C5 amended witness: int default 42 and float64 default 2.718281828
populate as their parsed values in the unset scenario. -/
theorem C5_amended_witness :
    (NewConfig (.cons (.leaf .kInt ⟨"port", "int", "42", "p"⟩) .nil)
        (.vcons (.vInt 0) .vnil) true ⟨[]⟩ noValues noValues
        (fun _ => .notFound)).populated = .vcons (.vInt 42) .vnil ∧
    (NewConfig (.cons (.leaf .kFloat64 ⟨"ratio2", "float64", "2.718281828", ""⟩) .nil)
        (.vcons (.vFloat64 ⟨0, 0⟩) .vnil) true ⟨[]⟩ noValues noValues
        (fun _ => .notFound)).populated
      = .vcons (.vFloat64 ⟨2718281828, 9⟩) .vnil :=
  ⟨(C5_amended ⟨"port", "int", "42", "p"⟩ (by decide) (by decide) _).2.2.1 42 rfl
      (by decide),
   (C5_amended ⟨"ratio2", "float64", "2.718281828", ""⟩ (by decide) (by decide)
      _).2.2.2.2 ⟨2718281828, 9⟩ rfl (by decide)⟩

/-- Two snoc-extensions of a common stem that are both prefixes of one list
agree on the extending element. -/
theorem snocPrefix_eq {p x : List Nat} {a b : Nat} (ha : p ++ [a] <+: x)
    (hb : p ++ [b] <+: x) : a = b := by
  obtain ⟨t1, h1⟩ := ha
  obtain ⟨t2, h2⟩ := hb
  rw [← h1, List.append_assoc, List.append_assoc] at h2
  have h3 : b :: t2 = a :: t1 := List.append_cancel_left h2
  injection h3 with h4 h5
  exact h4.symm

mutual
/-- Every event emitted while tracing a field at path p has p as a path
prefix. -/
theorem traceField_path (f : Field) (p : List Nat) (ev : Ev)
    (h : ev ∈ traceField f p) : p <+: ev.pathOf := by
  match f with
  | .leaf k t =>
    simp only [traceField] at h
    by_cases hk : assignedKind k = true
    · rw [if_pos hk] at h
      have he : ev = .assign p := by simpa using h
      simp [he, Ev.pathOf]
    · rw [if_neg hk] at h
      simp at h
  | .nested tag hp sub =>
    simp only [traceField] at h
    rcases List.mem_append.mp h with h1 | h2
    · obtain ⟨j, _, hpre⟩ := traceFields_path sub p 0 ev h1
      exact List.IsPrefix.trans (List.prefix_append p [j]) hpre
    · by_cases hhp : hp = true
      · rw [if_pos hhp] at h2
        have he : ev = .hook p := by simpa using h2
        simp [he, Ev.pathOf]
      · rw [if_neg hhp] at h2
        simp at h2
/-- Every event emitted while tracing a field list at path p from index i
extends p by some index at least i. -/
theorem traceFields_path (fs : Fields) (p : List Nat) (i : Nat) (ev : Ev)
    (h : ev ∈ traceFields fs p i) : ∃ j, i ≤ j ∧ (p ++ [j]) <+: ev.pathOf := by
  match fs with
  | .nil =>
    simp only [traceFields] at h
    simp at h
  | .cons f fs2 =>
    simp only [traceFields] at h
    rcases List.mem_append.mp h with h1 | h2
    · exact ⟨i, Nat.le_refl i, traceField_path f (p ++ [i]) ev h1⟩
    · obtain ⟨j, hj, hpre⟩ := traceFields_path fs2 p (i + 1) ev h2
      exact ⟨j, by omega, hpre⟩
end

/-- A hook event whose path is no longer than p cannot arise from tracing a
field list at path p: all such events carry strictly longer paths. -/
theorem hook_notMem_traceFields (fs : Fields) (p : List Nat) (i : Nat)
    (q : List Nat) (hlen : q.length ≤ p.length) :
    Ev.hook q ∉ traceFields fs p i := by
  intro hmem
  obtain ⟨j, _, hpre⟩ := traceFields_path fs p i _ hmem
  have hle := hpre.length_le
  simp [Ev.pathOf] at hle
  omega

/-- The hook of the struct level addressed by index j then path rest inside a
field list occurs exactly once in the list's trace, and no assignment into
that level's subtree follows it. -/
theorem hookInFields : ∀ (j : Nat) (rest : List Nat) (fs : Fields) (b : Bool)
    (p : List Nat) (i0 : Nat) (sub : Fields),
    levelAt fs b (j :: rest) = some (sub, true) →
    ∃ l r, traceFields fs p i0 = l ++ Ev.hook (p ++ (i0 + j) :: rest) :: r ∧
      Ev.hook (p ++ (i0 + j) :: rest) ∉ l ∧
      Ev.hook (p ++ (i0 + j) :: rest) ∉ r ∧
      ∀ p2, Ev.assign p2 ∈ r → ¬ (p ++ (i0 + j) :: rest) <+: p2
  | j, rest, .nil, b, p, i0, sub, h => absurd h (by simp [levelAt, fieldsGet])
  | 0, rest, .cons (.leaf k t) fs2, b, p, i0, sub, h =>
    absurd h (by simp [levelAt, fieldsGet])
  | 0, [], .cons (.nested tag hq2 sub2) fs2, b, p, i0, sub, h => by
    have h2 : sub2 = sub ∧ hq2 = true := by simpa [levelAt, fieldsGet] using h
    obtain ⟨_, hq⟩ := h2
    subst hq
    simp only [Nat.add_zero]
    refine ⟨traceFields sub2 (p ++ [i0]) 0, traceFields fs2 p (i0 + 1), ?_, ?_, ?_, ?_⟩
    · simp [traceFields, traceField, List.append_assoc]
    · exact hook_notMem_traceFields sub2 (p ++ [i0]) 0 _ (by simp)
    · intro hmem
      obtain ⟨j2, hj2, hpre⟩ := traceFields_path fs2 p (i0 + 1) _ hmem
      have hpath : (Ev.hook (p ++ [i0])).pathOf = p ++ [i0] := rfl
      rw [hpath] at hpre
      have heq := snocPrefix_eq hpre (List.prefix_refl _)
      omega
    · intro p2 hmem hcon
      obtain ⟨j2, hj2, hpre⟩ := traceFields_path fs2 p (i0 + 1) _ hmem
      have hpath : (Ev.assign p2).pathOf = p2 := rfl
      rw [hpath] at hpre
      have heq := snocPrefix_eq hpre hcon
      omega
  | 0, r1 :: rest2, .cons (.nested tag hq2 sub2) fs2, b, p, i0, sub, h => by
    have h2 : levelAt sub2 hq2 (r1 :: rest2) = some (sub, true) := h
    obtain ⟨l1, rv, he, hnl, hnr, has⟩ :=
      hookInFields r1 rest2 sub2 hq2 (p ++ [i0]) 0 sub h2
    simp only [Nat.add_zero]
    have hpath : (p ++ [i0]) ++ (0 + r1) :: rest2 = p ++ i0 :: r1 :: rest2 := by
      simp
    rw [hpath] at he hnl hnr has
    have hpre12 : p ++ [i0] <+: p ++ i0 :: r1 :: rest2 := ⟨r1 :: rest2, by simp⟩
    refine ⟨l1,
      rv ++ ((if hq2 then [Ev.hook (p ++ [i0])] else []) ++ traceFields fs2 p (i0 + 1)),
      ?_, hnl, ?_, ?_⟩
    · simp only [traceFields, traceField, he]
      simp [List.append_assoc]
    · intro hmem
      simp only [List.mem_append] at hmem
      rcases hmem with hmem | hmem | hmem
      · exact hnr hmem
      · by_cases hhq : hq2 = true
        · rw [if_pos hhq] at hmem
          simp only [List.mem_singleton] at hmem
          injection hmem with h3
          have := congrArg List.length h3
          simp at this
        · rw [if_neg hhq] at hmem
          simp at hmem
      · obtain ⟨j2, hj2, hpre⟩ := traceFields_path fs2 p (i0 + 1) _ hmem
        have hp2 : (Ev.hook (p ++ i0 :: r1 :: rest2)).pathOf
            = p ++ i0 :: r1 :: rest2 := rfl
        rw [hp2] at hpre
        have heq := snocPrefix_eq hpre hpre12
        omega
    · intro p2 hmem hcon
      simp only [List.mem_append] at hmem
      rcases hmem with hmem | hmem | hmem
      · exact has p2 hmem hcon
      · by_cases hhq : hq2 = true
        · rw [if_pos hhq] at hmem
          simp at hmem
        · rw [if_neg hhq] at hmem
          simp at hmem
      · obtain ⟨j2, hj2, hpre⟩ := traceFields_path fs2 p (i0 + 1) _ hmem
        have hp2 : (Ev.assign p2).pathOf = p2 := rfl
        rw [hp2] at hpre
        have heq := snocPrefix_eq hpre (hpre12.trans hcon)
        omega
  | jj + 1, rest, .cons f fs2, b, p, i0, sub, h => by
    have h2 : levelAt fs2 b (jj :: rest) = some (sub, true) := h
    obtain ⟨l1, rv, he, hnl, hnr, has⟩ := hookInFields jj rest fs2 b p (i0 + 1) sub h2
    have harith : i0 + 1 + jj = i0 + (jj + 1) := by omega
    rw [harith] at he hnl hnr has
    refine ⟨traceField f (p ++ [i0]) ++ l1, rv, ?_, ?_, hnr, has⟩
    · simp only [traceFields, he]
      simp [List.append_assoc]
    · intro hmem
      simp only [List.mem_append] at hmem
      rcases hmem with hmem | hmem
      · have hpre := traceField_path f (p ++ [i0]) _ hmem
        have hp2 : (Ev.hook (p ++ (i0 + (jj + 1)) :: rest)).pathOf
            = p ++ (i0 + (jj + 1)) :: rest := rfl
        rw [hp2] at hpre
        have hpre2 : p ++ [i0 + (jj + 1)] <+: p ++ (i0 + (jj + 1)) :: rest :=
          ⟨rest, by simp⟩
        have heq := snocPrefix_eq hpre hpre2
        omega
      · exact hnl hmem
termination_by j rest => (rest.length, j)

/-- C3: in one composition run, every struct level that exposes a Parse hook
fires it exactly once - the hook event occurs once in the run's trace - and
only after every field of that level and of its nested structures has been
assigned: no assignment with the level's path as prefix follows the hook. -/
theorem C3_hook_once_after_fields (F : Fields) (hp : Bool) (q : List Nat)
    (sub : Fields) (h : levelAt F hp q = some (sub, true)) :
    ∃ l r, runTrace F hp = l ++ Ev.hook q :: r ∧ Ev.hook q ∉ l ∧ Ev.hook q ∉ r ∧
      ∀ p2, Ev.assign p2 ∈ r → ¬ q <+: p2 := by
  match q with
  | [] =>
    have h2 : F = sub ∧ hp = true := by simpa [levelAt] using h
    obtain ⟨_, hhp⟩ := h2
    subst hhp
    refine ⟨traceFields F [] 0, [], ?_, ?_, by simp, by simp⟩
    · rw [runTrace]; simp
    · exact hook_notMem_traceFields F [] 0 [] (by simp)
  | j :: rest =>
    obtain ⟨l, rv, he, hnl, hnr, has⟩ := hookInFields j rest F hp [] 0 sub h
    have hpath : ([] : List Nat) ++ (0 + j) :: rest = j :: rest := by simp
    rw [hpath] at he hnl hnr has
    refine ⟨l, rv ++ (if hp then [Ev.hook []] else []), ?_, hnl, ?_, ?_⟩
    · rw [runTrace, he]; simp [List.append_assoc]
    · intro hmem
      simp only [List.mem_append] at hmem
      rcases hmem with hmem | hmem
      · exact hnr hmem
      · by_cases hhp : hp = true
        · rw [if_pos hhp] at hmem
          simp at hmem
        · rw [if_neg hhp] at hmem
          simp at hmem
    · intro p2 hmem hcon
      simp only [List.mem_append] at hmem
      rcases hmem with hmem | hmem
      · exact has p2 hmem hcon
      · by_cases hhp : hp = true
        · rw [if_pos hhp] at hmem
          simp at hmem
        · rw [if_neg hhp] at hmem
          simp at hmem

/-- C3 witness: the nested level of exHookStruct exposes a hook; its hook
event occurs once and after its field assignments in the run's trace. -/
theorem C3_hook_once_after_fields_witness :
    ∃ l r, runTrace exHookStruct false = l ++ Ev.hook [0] :: r ∧
      Ev.hook [0] ∉ l ∧ Ev.hook [0] ∉ r ∧
      ∀ p2, Ev.assign p2 ∈ r → ¬ [0] <+: p2 :=
  C3_hook_once_after_fields exHookStruct false [0]
    (.cons (.leaf .kString ⟨"dbhost", "string", "localhost", ""⟩) .nil) rfl

/-- C2 amended witness: with the config flag already registered globally, a
call leaves the global set unchanged while the caller set gains the struct's
flag. -/
theorem C2_amended_witness :
    (NewConfigWithFlagSet
        (.cons (.leaf .kString ⟨"foo_bar", "string", "static", ""⟩) .nil)
        (.vcons (.vString "") .vnil) [] ⟨[configFlagDef]⟩ noValues noValues
        (fun _ => ReadResult.notFound)).state.commandLine = [configFlagDef] :=
  (C2_amended (.cons (.leaf .kString ⟨"foo_bar", "string", "static", ""⟩) .nil)
    (.vcons (.vString "") .vnil) [] ⟨[configFlagDef]⟩ noValues noValues
    (fun _ => ReadResult.notFound)).2.2.1 rfl

end Coil
